import Mathlib

set_option linter.unusedVariables false

/-!
Verification of the message/intent layer of the `x/dao` staking module
(`x/dao/types/content.go`), together with a spec-modelled fragment of the
staking ledger needed for the IndexDelegate atomicity property.

Addresses (`sdk.AccAddress`, `sdk.ValAddress`) are byte slices, embedded as
`List Nat`; `sdk.Int` is an arbitrary-precision integer, embedded as `Int`;
`sdk.Dec` is an 18-digit fixed-point decimal implemented over a big integer,
embedded as the scaled integer value (so `OneDec = 10 ^ 18`).  `sdk.Error`
values are typed by kind plus a codespace; `ValidateBasic` returning the Go
`nil` error is embedded as `Option SdkError` returning `none`.
-/

namespace Dao

/-- `sdk.AccAddress`: raw account-address bytes. -/
abbrev AccAddress := List Nat

/-- `sdk.ValAddress`: raw validator-address bytes. -/
abbrev ValAddress := List Nat

/-- `sdk.CodespaceType`. -/
abbrev CodespaceType := String

/-- Modelled from the spec: the codespace discriminator attached to every
typed error of the module (`DefaultCodespace` in the module's error file,
which is not part of the visible source). Its concrete value is never
inspected by the visible code. -/
def DefaultCodespace : CodespaceType := "dao"

/-- `sdk.Dec` embedded as its scaled integer value (18 fractional digits). -/
abbrev Dec := Int

/-- `sdk.ZeroDec()`. -/
def ZeroDec : Dec := 0

/-- `sdk.OneDec()`: the value 1 at scale `10 ^ 18`. -/
def OneDec : Dec := 10 ^ 18

/-- `sdk.Int` embedded as `Int`. -/
abbrev SdkInt := Int

/-- `sdk.ZeroInt()`. -/
def ZeroInt : SdkInt := 0

/-- `sdk.Coin`: a denomination together with an amount. -/
structure Coin where
  Denom : String
  Amount : SdkInt
deriving DecidableEq, Repr

/-- Modelled from the spec: the validator `Description` record
(moniker/identity/website/details) whose definition lives outside the
visible source; the visible code only compares it against its zero value
`Description{}`. -/
structure Description where
  Moniker : String
  Identity : String
  Website : String
  Details : String
deriving DecidableEq, Repr

/-- The Go zero value `Description{}`. -/
def Description.empty : Description := ⟨"", "", "", ""⟩

/-- Modelled from the spec: the commission terms carried by CreateValidator
(rate, max rate, max change rate, §3 "commission schedule"); the visible
code only compares it against its zero value `CommissionMsg{}`. -/
structure CommissionMsg where
  Rate : Dec
  MaxRate : Dec
  MaxChangeRate : Dec
deriving DecidableEq, Repr

/-- The Go zero value `CommissionMsg{}`. -/
def CommissionMsg.empty : CommissionMsg := ⟨0, 0, 0⟩

/-- Modelled from the spec: the module's typed error kinds (§7 lists
NilDelegatorAddress, NilValidatorAddress, BadValidatorAddress,
BadDelegationAmount, MinSelfDelegationInvalid, SelfDelegationBelowMinimum,
BadSharesAmount, InvalidInput, plus a stateful "validator not found" kind),
each carrying the codespace discriminator.  `invalidInput` stands for
`sdk.NewError(codespace, CodeInvalidInput, msg)`. -/
inductive SdkError where
  | nilDelegatorAddr (codespace : CodespaceType)
  | nilValidatorAddr (codespace : CodespaceType)
  | badValidatorAddr (codespace : CodespaceType)
  | badDelegationAmount (codespace : CodespaceType)
  | minSelfDelegationInvalid (codespace : CodespaceType)
  | selfDelegationBelowMinimum (codespace : CodespaceType)
  | badSharesAmount (codespace : CodespaceType)
  | noValidatorFound (codespace : CodespaceType)
  | invalidInput (codespace : CodespaceType) (message : String)
deriving DecidableEq, Repr

/-- `ErrNilDelegatorAddr` of the module's error file. -/
def ErrNilDelegatorAddr (cs : CodespaceType) : SdkError := .nilDelegatorAddr cs

/-- `ErrNilValidatorAddr`. -/
def ErrNilValidatorAddr (cs : CodespaceType) : SdkError := .nilValidatorAddr cs

/-- `ErrBadValidatorAddr`. -/
def ErrBadValidatorAddr (cs : CodespaceType) : SdkError := .badValidatorAddr cs

/-- `ErrBadDelegationAmount`. -/
def ErrBadDelegationAmount (cs : CodespaceType) : SdkError := .badDelegationAmount cs

/-- `ErrMinSelfDelegationInvalid`. -/
def ErrMinSelfDelegationInvalid (cs : CodespaceType) : SdkError := .minSelfDelegationInvalid cs

/-- `ErrSelfDelegationBelowMinimum`. -/
def ErrSelfDelegationBelowMinimum (cs : CodespaceType) : SdkError := .selfDelegationBelowMinimum cs

/-- `ErrBadSharesAmount`. -/
def ErrBadSharesAmount (cs : CodespaceType) : SdkError := .badSharesAmount cs

/-- `ErrNoValidatorFound` (stateful tier, §7). -/
def ErrNoValidatorFound (cs : CodespaceType) : SdkError := .noValidatorFound cs

/-- `sdk.NewError(cs, CodeInvalidInput, m)` as used by the visible code. -/
def NewError (cs : CodespaceType) (m : String) : SdkError := .invalidInput cs m

/-- Modelled from the spec: governance `Content` is polymorphic over
TextProposal and SoftwareUpgradeProposal (§4.4); both variant definitions
live outside the visible source, which registers them by name and passes
them opaquely to `ValidateAbstract`. -/
inductive Content where
  | textProposal (title description : String)
  | softwareUpgradeProposal (title description : String)
deriving DecidableEq, Repr

/-- `ValidateAbstract` from `content.go`: the body is `// TBD` followed by
`return nil`. -/
def ValidateAbstract (codespace : CodespaceType) (c : Content) : Option SdkError :=
  none

/-- `MsgCreateValidator` - struct for bonding transactions.  The public key
(`crypto.PubKey`) is embedded as its raw key bytes. -/
structure MsgCreateValidator where
  Description : Description
  Commission : CommissionMsg
  MinSelfDelegation : SdkInt
  DelegatorAddress : AccAddress
  ValidatorAddress : ValAddress
  PubKey : List Nat
  Value : Coin
  ShareTokenDenom : String
deriving DecidableEq, Repr

/-- `MsgCreateValidator.GetSigners`: the delegator is first signer so the
delegator pays fees; if the validator address bytes are not the same as the
delegator address bytes, the validator must sign as well.  `sdk.AccAddress`
and `sdk.ValAddress` are both raw byte slices, so the Go cast
`sdk.AccAddress(msg.ValidatorAddress)` is the identity on bytes and
`bytes.Equal` is list equality. -/
def MsgCreateValidator.GetSigners (msg : MsgCreateValidator) : List AccAddress :=
  if msg.DelegatorAddress = msg.ValidatorAddress then
    [msg.DelegatorAddress]
  else
    [msg.DelegatorAddress, msg.ValidatorAddress]

/-- `MsgCreateValidator.ValidateBasic` from `content.go`. -/
def MsgCreateValidator.ValidateBasic (msg : MsgCreateValidator) : Option SdkError :=
  if msg.DelegatorAddress.isEmpty then
    some (ErrNilDelegatorAddr DefaultCodespace)
  else if msg.ValidatorAddress.isEmpty then
    some (ErrNilValidatorAddr DefaultCodespace)
  else if ¬ (msg.ValidatorAddress = msg.DelegatorAddress) then
    some (ErrBadValidatorAddr DefaultCodespace)
  else if msg.Value.Amount ≤ ZeroInt then
    some (ErrBadDelegationAmount DefaultCodespace)
  else if msg.Description = Description.empty then
    some (NewError DefaultCodespace "description must be included")
  else if msg.Commission = CommissionMsg.empty then
    some (NewError DefaultCodespace "commission must be included")
  else if msg.ShareTokenDenom = "" then
    some (NewError DefaultCodespace "share token denomination must be included.")
  else if ¬ (ZeroInt < msg.MinSelfDelegation) then
    some (ErrMinSelfDelegationInvalid DefaultCodespace)
  else if msg.Value.Amount < msg.MinSelfDelegation then
    some (ErrSelfDelegationBelowMinimum DefaultCodespace)
  else
    none

/-- `MsgEditValidator` - struct for editing a validator.  `CommissionRate`
and `MinSelfDelegation` are optional references (nil means "no update"). -/
structure MsgEditValidator where
  Description : Description
  ValidatorAddress : ValAddress
  CommissionRate : Option Dec
  MinSelfDelegation : Option SdkInt
deriving DecidableEq, Repr

/-- The Go condition
`msg.MinSelfDelegation != nil && !(*msg.MinSelfDelegation).GT(sdk.ZeroInt())`. -/
def minSelfDelegationFlagged : Option SdkInt → Bool
  | some m => decide (m ≤ ZeroInt)
  | none => false

/-- The Go condition `msg.CommissionRate != nil` together with the inner
check `msg.CommissionRate.GT(sdk.OneDec()) || msg.CommissionRate.LT(sdk.ZeroDec())`. -/
def commissionRateFlagged : Option Dec → Bool
  | some r => decide (OneDec < r ∨ r < ZeroDec)
  | none => false

/-- `MsgEditValidator.ValidateBasic` from `content.go`. -/
def MsgEditValidator.ValidateBasic (msg : MsgEditValidator) : Option SdkError :=
  if msg.ValidatorAddress.isEmpty then
    some (NewError DefaultCodespace "nil validator address")
  else if msg.Description = Description.empty then
    some (NewError DefaultCodespace "transaction must include some information to modify")
  else if minSelfDelegationFlagged msg.MinSelfDelegation then
    some (ErrMinSelfDelegationInvalid DefaultCodespace)
  else if commissionRateFlagged msg.CommissionRate then
    some (NewError DefaultCodespace "commission rate must be between 0 and 1, inclusive")
  else
    none

/-- `MsgDelegate` - struct for bonding transactions. -/
structure MsgDelegate where
  DelegatorAddress : AccAddress
  ValidatorAddress : ValAddress
  Amount : Coin
deriving DecidableEq, Repr

/-- `MsgDelegate.ValidateBasic` from `content.go`. -/
def MsgDelegate.ValidateBasic (msg : MsgDelegate) : Option SdkError :=
  if msg.DelegatorAddress.isEmpty then
    some (ErrNilDelegatorAddr DefaultCodespace)
  else if msg.ValidatorAddress.isEmpty then
    some (ErrNilValidatorAddr DefaultCodespace)
  else if msg.Amount.Amount ≤ ZeroInt then
    some (ErrBadDelegationAmount DefaultCodespace)
  else
    none

/-- `ValidatorPortion` (IndexDelegate payload). -/
structure ValidatorPortion where
  ValidatorAddress : ValAddress
  Amount : Coin
deriving DecidableEq, Repr

/-- `MsgIndexDelegate`. -/
structure MsgIndexDelegate where
  DelegatorAddress : AccAddress
  Portions : List ValidatorPortion
  Denomination : String
deriving DecidableEq, Repr

/-- The `for _, portion := range msg.Portions` loop of
`MsgIndexDelegate.ValidateBasic`, with its two early returns. -/
def checkPortions : List ValidatorPortion → Option SdkError
  | [] => none
  | portion :: rest =>
    if portion.ValidatorAddress.isEmpty then
      some (ErrNilValidatorAddr DefaultCodespace)
    else if portion.Amount.Amount ≤ ZeroInt then
      some (ErrBadDelegationAmount DefaultCodespace)
    else
      checkPortions rest

/-- `MsgIndexDelegate.ValidateBasic` from `content.go`. -/
def MsgIndexDelegate.ValidateBasic (msg : MsgIndexDelegate) : Option SdkError :=
  if msg.DelegatorAddress.isEmpty then
    some (ErrNilDelegatorAddr DefaultCodespace)
  else
    checkPortions msg.Portions

/-- `MsgBeginRedelegate`. -/
structure MsgBeginRedelegate where
  DelegatorAddress : AccAddress
  ValidatorSrcAddress : ValAddress
  ValidatorDstAddress : ValAddress
  Amount : Coin
deriving DecidableEq, Repr

/-- `MsgBeginRedelegate.ValidateBasic` from `content.go`. -/
def MsgBeginRedelegate.ValidateBasic (msg : MsgBeginRedelegate) : Option SdkError :=
  if msg.DelegatorAddress.isEmpty then
    some (ErrNilDelegatorAddr DefaultCodespace)
  else if msg.ValidatorSrcAddress.isEmpty then
    some (ErrNilValidatorAddr DefaultCodespace)
  else if msg.ValidatorDstAddress.isEmpty then
    some (ErrNilValidatorAddr DefaultCodespace)
  else if msg.Amount.Amount ≤ ZeroInt then
    some (ErrBadSharesAmount DefaultCodespace)
  else
    none

/-- `MsgUndelegate` - struct for unbonding transactions. -/
structure MsgUndelegate where
  DelegatorAddress : AccAddress
  ValidatorAddress : ValAddress
  Amount : Coin
deriving DecidableEq, Repr

/-- `MsgUndelegate.ValidateBasic` from `content.go`. -/
def MsgUndelegate.ValidateBasic (msg : MsgUndelegate) : Option SdkError :=
  if msg.DelegatorAddress.isEmpty then
    some (ErrNilDelegatorAddr DefaultCodespace)
  else if msg.ValidatorAddress.isEmpty then
    some (ErrNilValidatorAddr DefaultCodespace)
  else if msg.Amount.Amount ≤ ZeroInt then
    some (ErrBadSharesAmount DefaultCodespace)
  else
    none

/-! ### Bech32 consensus-public-key transcoding and custom JSON round-trip

`sdk.MustBech32ifyConsPub` and `sdk.GetConsPubKeyBech32` are framework
functions whose bodies are not part of the visible source; they are modelled
from the spec (§4.1: "the public key is represented in transit as a
bech32-style consensus-public-key string rather than the raw key bytes;
encode/decode must round-trip exactly and decode failure surfaces as a
deserialization error").  Strings in transit are embedded as their lists of
character codes; the key bytes are encoded after a fixed human-readable
part, two hexadecimal characters per byte. -/

/-- Character codes of the consensus-public-key human-readable part
`cosmosvalconspub`. -/
def consPubHrp : List Nat :=
  [99, 111, 115, 109, 111, 115, 118, 97, 108, 99, 111, 110, 115, 112, 117, 98]

/-- Character code of the hexadecimal digit for `n < 16`
(codes of `0`-`9` then `a`-`f`). -/
def hexDigitChar (n : Nat) : Nat :=
  if n < 10 then 48 + n else 87 + n

/-- The two hexadecimal character codes of a byte. -/
def encodeByte (b : Nat) : List Nat :=
  [hexDigitChar (b / 16), hexDigitChar (b % 16)]

/-- Modelled from the spec: `sdk.MustBech32ifyConsPub` - render a public key
as a consensus-public-key string (character codes). -/
def MustBech32ifyConsPub (pk : List Nat) : List Nat :=
  consPubHrp ++ (pk.map encodeByte).flatten

/-- Value of a hexadecimal digit character code, if it is one. -/
def fromHexDigit (c : Nat) : Option Nat :=
  if 48 ≤ c ∧ c ≤ 57 then some (c - 48)
  else if 97 ≤ c ∧ c ≤ 102 then some (c - 87)
  else none

/-- Decode consecutive pairs of hexadecimal character codes into bytes;
fails on a dangling or non-hexadecimal character. -/
def decodeHexPairs : List Nat → Option (List Nat)
  | [] => some []
  | [_] => none
  | c1 :: c2 :: rest =>
    match fromHexDigit c1, fromHexDigit c2, decodeHexPairs rest with
    | some h, some l, some bs => some ((16 * h + l) :: bs)
    | _, _, _ => none

/-- Modelled from the spec: `sdk.GetConsPubKeyBech32` - decode a
consensus-public-key string back to the public key, returning a
deserialization error (never panicking) when the string is malformed. -/
def GetConsPubKeyBech32 (s : List Nat) : Except String (List Nat) :=
  if s.take consPubHrp.length = consPubHrp then
    match decodeHexPairs (s.drop consPubHrp.length) with
    | some pk => .ok pk
    | none => .error "decoding bech32 failed"
  else
    .error "invalid bech32 hrp"

/-- `msgCreateValidatorJSON`: the transit shape of `MsgCreateValidator`, in
which the public key is a bech32-style string (character codes) instead of
the raw key bytes.  The framework's generic JSON encoding of this flat
struct is out of scope; the custom transcoding of `content.go` is what is
embedded. -/
structure msgCreateValidatorJSON where
  Description : Description
  Commission : CommissionMsg
  MinSelfDelegation : SdkInt
  DelegatorAddress : AccAddress
  ValidatorAddress : ValAddress
  PubKey : List Nat
  Value : Coin
  ShareTokenDenom : String
deriving DecidableEq, Repr

/-- `MsgCreateValidator.MarshalJSON` from `content.go`: build the transit
value field by field, bech32-encoding the public key. -/
def MsgCreateValidator.MarshalJSON (msg : MsgCreateValidator) : msgCreateValidatorJSON :=
  { Description := msg.Description
    Commission := msg.Commission
    MinSelfDelegation := msg.MinSelfDelegation
    DelegatorAddress := msg.DelegatorAddress
    ValidatorAddress := msg.ValidatorAddress
    PubKey := MustBech32ifyConsPub msg.PubKey
    Value := msg.Value
    ShareTokenDenom := msg.ShareTokenDenom }

/-- `MsgCreateValidator.UnmarshalJSON` from `content.go`: copy the fields
back, decoding the public-key string; a decode failure is returned as an
error. -/
def MsgCreateValidator.UnmarshalJSON (j : msgCreateValidatorJSON) :
    Except String MsgCreateValidator :=
  match GetConsPubKeyBech32 j.PubKey with
  | .error e => .error e
  | .ok pk =>
    .ok { Description := j.Description
          Commission := j.Commission
          MinSelfDelegation := j.MinSelfDelegation
          DelegatorAddress := j.DelegatorAddress
          ValidatorAddress := j.ValidatorAddress
          PubKey := pk
          Value := j.Value
          ShareTokenDenom := j.ShareTokenDenom }

/-! ### Spec-modelled staking-ledger fragment for IndexDelegate

`ApplyIndexDelegate` and `ApplyDelegate` belong to the staking Ledger, whose
source is not visible; they are modelled from the spec (§4.2).  The ledger
state keeps the set of existing, delegation-eligible validators and the
delegation records (delegator, validator, shares).  The exchange-rate
arithmetic is taken at the genesis rate of one share per token unit (§4.2
ApplyCreateValidator), since the properties at stake concern atomicity, not
share arithmetic. -/

/-- Modelled from the spec: the persistent ledger state visible to
`ApplyDelegate` / `ApplyIndexDelegate`. -/
structure LedgerState where
  validators : List ValAddress
  delegations : List (AccAddress × ValAddress × Int)
deriving DecidableEq, Repr

/-- Credit shares to the (delegator, validator) record, creating it if
absent (§4.2 ApplyDelegate). -/
def addShares : List (AccAddress × ValAddress × Int) → AccAddress → ValAddress → Int →
    List (AccAddress × ValAddress × Int)
  | [], d, v, a => [(d, v, a)]
  | e :: rest, d, v, a =>
    if e.1 = d ∧ e.2.1 = v then (d, v, e.2.2 + a) :: rest
    else e :: addShares rest d v a

/-- Shares currently owned by a delegator at a validator (0 if no record). -/
def sharesOf (st : LedgerState) (d : AccAddress) (v : ValAddress) : Int :=
  match st.delegations.find? (fun e => e.1 = d ∧ e.2.1 = v) with
  | some e => e.2.2
  | none => 0

/-- Modelled from the spec: `ApplyDelegate` - fails if the validator is
absent or not eligible, rejects a non-positive amount, otherwise credits
the delegation record. -/
def ApplyDelegate (st : LedgerState) (d : AccAddress) (v : ValAddress) (amt : Int) :
    Except SdkError LedgerState :=
  if v ∈ st.validators then
    if amt ≤ 0 then .error (ErrBadDelegationAmount DefaultCodespace)
    else .ok { st with delegations := addShares st.delegations d v amt }
  else
    .error (ErrNoValidatorFound DefaultCodespace)

/-- The sequential application of the portions, threading the intermediate
state and stopping at the first failure. -/
def applyPortionsLoop : LedgerState → AccAddress → List ValidatorPortion →
    Except SdkError LedgerState
  | st, _, [] => .ok st
  | st, d, p :: ps =>
    match ApplyDelegate st d p.ValidatorAddress p.Amount.Amount with
    | .error e => .error e
    | .ok st' => applyPortionsLoop st' d ps

/-- Modelled from the spec: `ApplyIndexDelegate` - applies a list of
per-validator delegations as one logical transaction; on any failure all
writes made so far within the transaction are rolled back, so the caller
observes the original state together with the typed error (§4.2, §5). -/
def ApplyIndexDelegate (st : LedgerState) (d : AccAddress) (ps : List ValidatorPortion) :
    LedgerState × Option SdkError :=
  match applyPortionsLoop st d ps with
  | .ok st' => (st', none)
  | .error e => (st, some e)

/-! ## Theorems -/

/-- C7: `ValidateAbstract` for governance proposal content is a no-op stub:
for every codespace and every `Content` value it returns no error,
performing no validation of title or description length. -/
theorem validateAbstract_noop :
    ∀ (cs : CodespaceType) (c : Content), ValidateAbstract cs c = none :=
  fun _ _ => rfl

/-- C8: `MsgIndexDelegate.ValidateBasic` imposes no minimum portion count:
with a non-empty delegator address and an empty `Portions` list it
returns success. -/
theorem msgIndexDelegate_emptyPortions_ok (del : AccAddress) (denom : String)
    (hdel : del ≠ []) :
    MsgIndexDelegate.ValidateBasic ⟨del, [], denom⟩ = none := by
  simp [MsgIndexDelegate.ValidateBasic, checkPortions, List.isEmpty_iff, hdel]

/-- Witness for C8 at a concrete message. -/
theorem msgIndexDelegate_emptyPortions_ok_witness :
    MsgIndexDelegate.ValidateBasic ⟨[1], [], "sharetoken"⟩ = none :=
  msgIndexDelegate_emptyPortions_ok [1] "sharetoken" (by decide)

/-- C10: `MsgBeginRedelegate.ValidateBasic` does not require the source and
destination validators to differ: with equal non-empty source and
destination validator addresses, a non-empty delegator address and a
strictly positive amount, it returns success. -/
theorem msgBeginRedelegate_selfRedelegation_ok (del val : List Nat)
    (denom : String) (amt : Int)
    (hdel : del ≠ []) (hval : val ≠ []) (hamt : 0 < amt) :
    MsgBeginRedelegate.ValidateBasic ⟨del, val, val, ⟨denom, amt⟩⟩ = none := by
  simp only [MsgBeginRedelegate.ValidateBasic, List.isEmpty_iff]
  rw [if_neg hdel, if_neg hval, if_neg hval, if_neg (by simpa [ZeroInt] using hamt.not_le)]

/-- Witness for C10 at a concrete message. -/
theorem msgBeginRedelegate_selfRedelegation_ok_witness :
    MsgBeginRedelegate.ValidateBasic ⟨[7], [3], [3], ⟨"atom", 5⟩⟩ = none :=
  msgBeginRedelegate_selfRedelegation_ok [7] [3] "atom" 5
    (by decide) (by decide) (by decide)

/-- C9: for a zero or negative amount (all addresses non-empty),
`MsgUndelegate.ValidateBasic` and `MsgBeginRedelegate.ValidateBasic` return
the BadSharesAmount error, whereas `MsgDelegate.ValidateBasic` and
`MsgIndexDelegate.ValidateBasic` return the BadDelegationAmount error for
the same condition. -/
theorem nonpositiveAmount_errorKinds (del val val2 : List Nat)
    (denom : String) (amt : Int)
    (hdel : del ≠ []) (hval : val ≠ []) (hval2 : val2 ≠ []) (hamt : amt ≤ 0) :
    MsgUndelegate.ValidateBasic ⟨del, val, ⟨denom, amt⟩⟩ =
        some (ErrBadSharesAmount DefaultCodespace) ∧
    MsgBeginRedelegate.ValidateBasic ⟨del, val, val2, ⟨denom, amt⟩⟩ =
        some (ErrBadSharesAmount DefaultCodespace) ∧
    MsgDelegate.ValidateBasic ⟨del, val, ⟨denom, amt⟩⟩ =
        some (ErrBadDelegationAmount DefaultCodespace) ∧
    MsgIndexDelegate.ValidateBasic ⟨del, [⟨val, ⟨denom, amt⟩⟩], denom⟩ =
        some (ErrBadDelegationAmount DefaultCodespace) := by
  refine ⟨?_, ?_, ?_, ?_⟩
  · simp only [MsgUndelegate.ValidateBasic, List.isEmpty_iff]
    rw [if_neg hdel, if_neg hval, if_pos (by simpa [ZeroInt] using hamt)]
  · simp only [MsgBeginRedelegate.ValidateBasic, List.isEmpty_iff]
    rw [if_neg hdel, if_neg hval, if_neg hval2, if_pos (by simpa [ZeroInt] using hamt)]
  · simp only [MsgDelegate.ValidateBasic, List.isEmpty_iff]
    rw [if_neg hdel, if_neg hval, if_pos (by simpa [ZeroInt] using hamt)]
  · simp only [MsgIndexDelegate.ValidateBasic, List.isEmpty_iff, checkPortions]
    rw [if_neg hdel, if_neg hval, if_pos (by simpa [ZeroInt] using hamt)]

/-- Witness for C9 at a concrete amount 0. -/
theorem nonpositiveAmount_errorKinds_witness :
    MsgUndelegate.ValidateBasic ⟨[1], [2], ⟨"atom", 0⟩⟩ =
        some (ErrBadSharesAmount DefaultCodespace) ∧
    MsgBeginRedelegate.ValidateBasic ⟨[1], [2], [3], ⟨"atom", 0⟩⟩ =
        some (ErrBadSharesAmount DefaultCodespace) ∧
    MsgDelegate.ValidateBasic ⟨[1], [2], ⟨"atom", 0⟩⟩ =
        some (ErrBadDelegationAmount DefaultCodespace) ∧
    MsgIndexDelegate.ValidateBasic ⟨[1], [⟨[2], ⟨"atom", 0⟩⟩], "atom"⟩ =
        some (ErrBadDelegationAmount DefaultCodespace) :=
  nonpositiveAmount_errorKinds [1] [2] [3] "atom" 0
    (by decide) (by decide) (by decide) (by decide)

/-- C6: `MsgCreateValidator.GetSigners` returns the delegator address first
and appends the validator address (as an account address) exactly when its
bytes differ from the delegator's; the result has length 1 when they are
equal and length 2 otherwise, with no duplicates. -/
theorem msgCreateValidator_getSigners_spec (msg : MsgCreateValidator) :
    (MsgCreateValidator.GetSigners msg).head? = some msg.DelegatorAddress ∧
    (msg.DelegatorAddress = msg.ValidatorAddress →
      msg.GetSigners = [msg.DelegatorAddress]) ∧
    (msg.DelegatorAddress ≠ msg.ValidatorAddress →
      msg.GetSigners = [msg.DelegatorAddress, msg.ValidatorAddress]) ∧
    (msg.GetSigners.length = 1 ↔ msg.DelegatorAddress = msg.ValidatorAddress) ∧
    (msg.GetSigners.length = 2 ↔ msg.DelegatorAddress ≠ msg.ValidatorAddress) ∧
    msg.GetSigners.Nodup := by
  by_cases h : msg.DelegatorAddress = msg.ValidatorAddress <;>
    simp [MsgCreateValidator.GetSigners, h]

/-- Witness for C6 at a concrete message with distinct addresses. -/
theorem msgCreateValidator_getSigners_spec_witness :
    MsgCreateValidator.GetSigners
        ⟨Description.empty, CommissionMsg.empty, 1, [4], [5], [], ⟨"atom", 1⟩, "s"⟩ =
      [[4], [5]] :=
  (msgCreateValidator_getSigners_spec
    ⟨Description.empty, CommissionMsg.empty, 1, [4], [5], [], ⟨"atom", 1⟩, "s"⟩).2.2.1
    (by decide)

/-- C3: `MsgCreateValidator.ValidateBasic` succeeds exactly when the
delegator and validator addresses are non-empty, the validator address
equals the delegator address, the initial value is strictly positive, the
description and commission are non-default, the share-token denomination is
non-empty, `minSelfDelegation > 0` and `value >= minSelfDelegation`; and a
message with value 100 and minSelfDelegation 150 fails with
SelfDelegationBelowMinimum. -/
theorem msgCreateValidator_validateBasic_spec :
    (∀ msg : MsgCreateValidator,
      msg.ValidateBasic = none ↔
        (msg.DelegatorAddress ≠ [] ∧ msg.ValidatorAddress ≠ [] ∧
         msg.ValidatorAddress = msg.DelegatorAddress ∧
         0 < msg.Value.Amount ∧
         msg.Description ≠ Description.empty ∧
         msg.Commission ≠ CommissionMsg.empty ∧
         msg.ShareTokenDenom ≠ "" ∧
         0 < msg.MinSelfDelegation ∧
         msg.MinSelfDelegation ≤ msg.Value.Amount)) ∧
    MsgCreateValidator.ValidateBasic
        ⟨⟨"moniker", "", "", ""⟩, ⟨1, 2, 3⟩, 150, [1], [1], [], ⟨"atom", 100⟩, "share"⟩ =
      some (ErrSelfDelegationBelowMinimum DefaultCodespace) := by
  refine ⟨fun msg => ?_, by decide⟩
  constructor
  · intro h
    unfold MsgCreateValidator.ValidateBasic at h
    simp only [List.isEmpty_iff, ZeroInt] at h
    by_cases h1 : msg.DelegatorAddress = []
    · rw [if_pos h1] at h; exact absurd h (by simp)
    rw [if_neg h1] at h
    by_cases h2 : msg.ValidatorAddress = []
    · rw [if_pos h2] at h; exact absurd h (by simp)
    rw [if_neg h2] at h
    by_cases h3 : msg.ValidatorAddress = msg.DelegatorAddress
    swap
    · rw [if_pos h3] at h; exact absurd h (by simp)
    rw [if_neg (not_not_intro h3)] at h
    by_cases h4 : msg.Value.Amount ≤ 0
    · rw [if_pos h4] at h; exact absurd h (by simp)
    rw [if_neg h4] at h
    by_cases h5 : msg.Description = Description.empty
    · rw [if_pos h5] at h; exact absurd h (by simp)
    rw [if_neg h5] at h
    by_cases h6 : msg.Commission = CommissionMsg.empty
    · rw [if_pos h6] at h; exact absurd h (by simp)
    rw [if_neg h6] at h
    by_cases h7 : msg.ShareTokenDenom = ""
    · rw [if_pos h7] at h; exact absurd h (by simp)
    rw [if_neg h7] at h
    by_cases h8 : 0 < msg.MinSelfDelegation
    swap
    · rw [if_pos h8] at h; exact absurd h (by simp)
    rw [if_neg (not_not_intro h8)] at h
    by_cases h9 : msg.Value.Amount < msg.MinSelfDelegation
    · rw [if_pos h9] at h; exact absurd h (by simp)
    exact ⟨h1, h2, h3, not_le.mp h4, h5, h6, h7, h8, not_lt.mp h9⟩
  · rintro ⟨c1, c2, c3, c4, c5, c6, c7, c8, c9⟩
    unfold MsgCreateValidator.ValidateBasic
    simp only [List.isEmpty_iff, ZeroInt]
    rw [if_neg c1, if_neg c2, if_neg (not_not_intro c3), if_neg (not_le.mpr c4),
      if_neg c5, if_neg c6, if_neg c7, if_neg (not_not_intro c8),
      if_neg (not_lt.mpr c9)]

/-- Witness for C3: a fully valid concrete message is accepted. -/
theorem msgCreateValidator_validateBasic_spec_witness :
    MsgCreateValidator.ValidateBasic
        ⟨⟨"moniker", "", "", ""⟩, ⟨1, 2, 3⟩, 50, [1], [1], [], ⟨"atom", 100⟩, "share"⟩ =
      none :=
  (msgCreateValidator_validateBasic_spec.1
    ⟨⟨"moniker", "", "", ""⟩, ⟨1, 2, 3⟩, 50, [1], [1], [], ⟨"atom", 100⟩, "share"⟩).mpr
    (by refine ⟨by decide, by decide, by decide, by decide, by decide, by decide,
          by decide, by decide, by decide⟩)

/-- C1 counterexample: a `MsgEditValidator` with a non-empty validator
address, a default (empty) description and a present commission rate of 0.5
(inside [0,1]) is rejected by `ValidateBasic`, where the claim predicts
success. -/
theorem msgEditValidator_defaultDescription_rejected :
    MsgEditValidator.ValidateBasic
        ⟨Description.empty, [1], some (5 * 10 ^ 17), none⟩ ≠ none := by
  decide

/-- C1 (amended): `MsgEditValidator.ValidateBasic` accepts a message exactly
when the validator address is non-empty, the description is non-default
(unconditionally - a present commission rate or min-self-delegation does not
substitute for it), any present min-self-delegation is strictly positive and
any present commission rate lies in [0,1]. -/
theorem msgEditValidator_validateBasic_spec (msg : MsgEditValidator) :
    msg.ValidateBasic = none ↔
      (msg.ValidatorAddress ≠ [] ∧
       msg.Description ≠ Description.empty ∧
       (∀ m, msg.MinSelfDelegation = some m → 0 < m) ∧
       (∀ r, msg.CommissionRate = some r → 0 ≤ r ∧ r ≤ OneDec)) := by
  constructor
  · intro h
    unfold MsgEditValidator.ValidateBasic at h
    simp only [List.isEmpty_iff] at h
    by_cases h1 : msg.ValidatorAddress = []
    · rw [if_pos h1] at h; exact absurd h (by simp)
    rw [if_neg h1] at h
    by_cases h2 : msg.Description = Description.empty
    · rw [if_pos h2] at h; exact absurd h (by simp)
    rw [if_neg h2] at h
    by_cases h3 : minSelfDelegationFlagged msg.MinSelfDelegation = true
    · rw [if_pos h3] at h; exact absurd h (by simp)
    rw [if_neg h3] at h
    by_cases h4 : commissionRateFlagged msg.CommissionRate = true
    · rw [if_pos h4] at h; exact absurd h (by simp)
    refine ⟨h1, h2, ?_, ?_⟩
    · intro m hm
      rw [hm] at h3
      simp only [minSelfDelegationFlagged, decide_eq_true_eq, ZeroInt] at h3
      exact not_le.mp h3
    · intro r hr
      rw [hr] at h4
      simp only [commissionRateFlagged, decide_eq_true_eq, ZeroDec, not_or,
        not_lt] at h4
      exact ⟨h4.2, h4.1⟩
  · rintro ⟨c1, c2, c3, c4⟩
    unfold MsgEditValidator.ValidateBasic
    simp only [List.isEmpty_iff]
    have hmin : ¬ minSelfDelegationFlagged msg.MinSelfDelegation = true := by
      rcases ho : msg.MinSelfDelegation with - | m
      · simp [minSelfDelegationFlagged]
      · have := c3 m ho
        simp only [minSelfDelegationFlagged, decide_eq_true_eq, ZeroInt]
        exact not_le.mpr this
    have hrate : ¬ commissionRateFlagged msg.CommissionRate = true := by
      rcases ho : msg.CommissionRate with - | r
      · simp [commissionRateFlagged]
      · rcases c4 r ho with ⟨hr0, hr1⟩
        simp only [commissionRateFlagged, decide_eq_true_eq, ZeroDec, not_or,
          not_lt]
        exact ⟨hr1, hr0⟩
    rw [if_neg c1, if_neg c2, if_neg hmin, if_neg hrate]

/-- Witness for C1 (amended): a message with a non-default description and a
present commission rate of 0.5 (at the `sdk.Dec` scale of `10 ^ 18`) is
accepted. -/
theorem msgEditValidator_validateBasic_spec_witness :
    MsgEditValidator.ValidateBasic
        ⟨⟨"moniker", "", "", ""⟩, [1], some (5 * 10 ^ 17), none⟩ = none := by
  apply (msgEditValidator_validateBasic_spec
    ⟨⟨"moniker", "", "", ""⟩, [1], some (5 * 10 ^ 17), none⟩).mpr
  refine ⟨by decide, by decide, fun m hm => by simp at hm, fun r hr => ?_⟩
  simp only [Option.some.injEq] at hr
  subst hr
  constructor
  · decide
  · decide

/-- The portion loop passes over a block of valid portions untouched. -/
theorem checkPortions_append (good rest : List ValidatorPortion)
    (hgood : ∀ q ∈ good, q.ValidatorAddress ≠ [] ∧ 0 < q.Amount.Amount) :
    checkPortions (good ++ rest) = checkPortions rest := by
  induction good with
  | nil => rfl
  | cons q qs ih =>
    rcases hgood q (by simp) with ⟨hv, ha⟩
    simp only [List.cons_append, checkPortions, List.isEmpty_iff, ZeroInt]
    rw [if_neg hv, if_neg (not_le.mpr ha)]
    exact ih (fun q' hq' => hgood q' (by simp [hq']))

/-- C4: `MsgIndexDelegate.ValidateBasic` checks the delegator address first,
then each portion in order; the first failing portion short-circuits
validation, returning NilValidatorAddr for an empty portion validator
address and BadDelegationAmount for a non-positive portion amount, without
examining later portions (the result is unchanged under replacing the
portions after the failing one). -/
theorem msgIndexDelegate_shortCircuit
    (del : AccAddress) (denom : String) (good : List ValidatorPortion)
    (p : ValidatorPortion) (rest rest' : List ValidatorPortion)
    (hdel : del ≠ [])
    (hgood : ∀ q ∈ good, q.ValidatorAddress ≠ [] ∧ 0 < q.Amount.Amount)
    (hbad : p.ValidatorAddress = [] ∨ p.Amount.Amount ≤ 0) :
    (∀ ps : List ValidatorPortion,
        MsgIndexDelegate.ValidateBasic ⟨[], ps, denom⟩ =
          some (ErrNilDelegatorAddr DefaultCodespace)) ∧
    MsgIndexDelegate.ValidateBasic ⟨del, good ++ p :: rest, denom⟩ =
      (if p.ValidatorAddress = [] then some (ErrNilValidatorAddr DefaultCodespace)
       else some (ErrBadDelegationAmount DefaultCodespace)) ∧
    MsgIndexDelegate.ValidateBasic ⟨del, good ++ p :: rest, denom⟩ =
      MsgIndexDelegate.ValidateBasic ⟨del, good ++ p :: rest', denom⟩ := by
  have key : ∀ l : List ValidatorPortion, checkPortions (p :: l) =
      (if p.ValidatorAddress = [] then some (ErrNilValidatorAddr DefaultCodespace)
       else some (ErrBadDelegationAmount DefaultCodespace)) := by
    intro l
    by_cases hv : p.ValidatorAddress = []
    · simp [checkPortions, List.isEmpty_iff, hv]
    · rcases hbad with hb | hb
      · exact absurd hb hv
      · simp only [checkPortions, List.isEmpty_iff, ZeroInt]
        rw [if_neg hv, if_pos hb, if_neg hv]
  refine ⟨?_, ?_, ?_⟩
  · intro ps
    simp [MsgIndexDelegate.ValidateBasic]
  · simp only [MsgIndexDelegate.ValidateBasic, List.isEmpty_iff]
    rw [if_neg hdel, checkPortions_append good (p :: rest) hgood, key rest]
  · simp only [MsgIndexDelegate.ValidateBasic, List.isEmpty_iff]
    rw [if_neg hdel, if_neg hdel, checkPortions_append good (p :: rest) hgood,
      checkPortions_append good (p :: rest') hgood, key rest, key rest']

/-- Witness for C4: concrete portions where the second has an empty
validator address; a later portion would also be invalid but is never
reached. -/
theorem msgIndexDelegate_shortCircuit_witness :
    MsgIndexDelegate.ValidateBasic
        ⟨[1], [⟨[2], ⟨"atom", 3⟩⟩, ⟨[], ⟨"atom", 1⟩⟩, ⟨[5], ⟨"atom", -1⟩⟩], "atom"⟩ =
      some (ErrNilValidatorAddr DefaultCodespace) := by
  have h := msgIndexDelegate_shortCircuit [1] "atom" [⟨[2], ⟨"atom", 3⟩⟩]
    ⟨[], ⟨"atom", 1⟩⟩ [⟨[5], ⟨"atom", -1⟩⟩] [] (by decide) (by decide) (Or.inl rfl)
  exact h.2.1.trans (by decide)

/-- A successful `ApplyDelegate` leaves the validator set unchanged. -/
theorem ApplyDelegate_ok_validators (st st' : LedgerState) (d : AccAddress)
    (v : ValAddress) (a : Int) (h : ApplyDelegate st d v a = .ok st') :
    st'.validators = st.validators := by
  unfold ApplyDelegate at h
  by_cases hv : v ∈ st.validators
  · rw [if_pos hv] at h
    by_cases ha : a ≤ 0
    · rw [if_pos ha] at h; exact absurd h (by simp)
    · rw [if_neg ha] at h
      injection h with h
      rw [← h]
  · rw [if_neg hv] at h; exact absurd h (by simp)

/-- `ApplyDelegate` succeeds exactly on an existing, eligible validator and
a strictly positive amount. -/
theorem ApplyDelegate_ok_iff (st : LedgerState) (d : AccAddress)
    (v : ValAddress) (a : Int) :
    (∃ st', ApplyDelegate st d v a = .ok st') ↔ (v ∈ st.validators ∧ 0 < a) := by
  unfold ApplyDelegate
  by_cases hv : v ∈ st.validators
  · rw [if_pos hv]
    by_cases ha : a ≤ 0
    · rw [if_pos ha]
      constructor
      · rintro ⟨st', h⟩; exact absurd h (by simp)
      · rintro ⟨-, hlt⟩; exact absurd hlt (not_lt.mpr ha)
    · rw [if_neg ha]
      exact iff_of_true ⟨_, rfl⟩ ⟨hv, not_le.mp ha⟩
  · rw [if_neg hv]
    constructor
    · rintro ⟨st', h⟩; exact absurd h (by simp)
    · rintro ⟨hmem, -⟩; exact absurd hmem hv

/-- The sequential portion loop succeeds exactly when every portion names an
existing, eligible validator with a strictly positive amount (delegating
never changes the validator set). -/
theorem applyPortionsLoop_ok_iff (d : AccAddress) :
    ∀ (ps : List ValidatorPortion) (st : LedgerState),
      (∃ st', applyPortionsLoop st d ps = .ok st') ↔
        ∀ p ∈ ps, p.ValidatorAddress ∈ st.validators ∧ 0 < p.Amount.Amount := by
  intro ps
  induction ps with
  | nil => intro st; simp [applyPortionsLoop]
  | cons p ps ih =>
    intro st
    simp only [applyPortionsLoop]
    constructor
    · rintro ⟨st', h⟩
      cases hap : ApplyDelegate st d p.ValidatorAddress p.Amount.Amount with
      | error e => rw [hap] at h; exact absurd h (by simp)
      | ok st1 =>
        rw [hap] at h
        have hval := (ApplyDelegate_ok_iff st d p.ValidatorAddress p.Amount.Amount).mp
          ⟨st1, hap⟩
        have hrest := (ih st1).mp ⟨st', h⟩
        intro q hq
        rcases List.mem_cons.mp hq with rfl | hq'
        · exact hval
        · have hmem := hrest q hq'
          rwa [ApplyDelegate_ok_validators st st1 d p.ValidatorAddress
            p.Amount.Amount hap] at hmem
    · intro hall
      cases hap : ApplyDelegate st d p.ValidatorAddress p.Amount.Amount with
      | error e =>
        rcases (ApplyDelegate_ok_iff st d p.ValidatorAddress p.Amount.Amount).mpr
          (hall p (by simp)) with ⟨st1, h1⟩
        rw [hap] at h1
        exact absurd h1 (by simp)
      | ok st1 =>
        have hvals := ApplyDelegate_ok_validators st st1 d p.ValidatorAddress
          p.Amount.Amount hap
        rcases (ih st1).mpr (fun q hq => by
          rw [hvals]; exact hall q (List.mem_cons_of_mem p hq)) with ⟨st', h'⟩
        exact ⟨st', h'⟩

/-- C2: `ApplyIndexDelegate` is all-or-nothing: it succeeds exactly when
every portion is applicable (each referenced validator exists and is
eligible, with a positive amount), and on any failure the caller observes
the original, unmodified state; in particular, applying portions
`[(V1, 10), (V2, -5)]` (second invalid) to a state where the delegator owns
7 shares at V1 leaves those shares at 7 and returns the BadDelegationAmount
error. -/
theorem applyIndexDelegate_atomic :
    (∀ (st : LedgerState) (d : AccAddress) (ps : List ValidatorPortion),
        (ApplyIndexDelegate st d ps).2 = none ↔
          ∀ p ∈ ps, p.ValidatorAddress ∈ st.validators ∧ 0 < p.Amount.Amount) ∧
    (∀ (st : LedgerState) (d : AccAddress) (ps : List ValidatorPortion)
        (e : SdkError),
        (ApplyIndexDelegate st d ps).2 = some e →
          (ApplyIndexDelegate st d ps).1 = st) ∧
    (ApplyIndexDelegate ⟨[[1], [2]], [([9], [1], 7)]⟩ [9]
          [⟨[1], ⟨"stake", 10⟩⟩, ⟨[2], ⟨"stake", -5⟩⟩] =
        (⟨[[1], [2]], [([9], [1], 7)]⟩, some (ErrBadDelegationAmount DefaultCodespace)) ∧
      sharesOf (ApplyIndexDelegate ⟨[[1], [2]], [([9], [1], 7)]⟩ [9]
          [⟨[1], ⟨"stake", 10⟩⟩, ⟨[2], ⟨"stake", -5⟩⟩]).1 [9] [1] = 7) := by
  refine ⟨?_, ?_, by decide, by decide⟩
  · intro st d ps
    unfold ApplyIndexDelegate
    cases hap : applyPortionsLoop st d ps with
    | ok st' =>
      simpa using (applyPortionsLoop_ok_iff d ps st).mp ⟨st', hap⟩
    | error e =>
      have hno : ¬ ∀ p ∈ ps, p.ValidatorAddress ∈ st.validators ∧
          0 < p.Amount.Amount := by
        intro hall
        rcases (applyPortionsLoop_ok_iff d ps st).mpr hall with ⟨st', h'⟩
        rw [hap] at h'
        exact absurd h' (by simp)
      simpa using hno
  · intro st d ps e
    unfold ApplyIndexDelegate
    cases hap : applyPortionsLoop st d ps with
    | ok st' => intro h; exact absurd h (by simp)
    | error e' => intro h; rfl

/-- Witness for C2: the rollback clause applied at the concrete failing
portion list. -/
theorem applyIndexDelegate_atomic_witness :
    (ApplyIndexDelegate ⟨[[1], [2]], [([9], [1], 7)]⟩ [9]
        [⟨[1], ⟨"stake", 10⟩⟩, ⟨[2], ⟨"stake", -5⟩⟩]).1 =
      ⟨[[1], [2]], [([9], [1], 7)]⟩ :=
  applyIndexDelegate_atomic.2.1 ⟨[[1], [2]], [([9], [1], 7)]⟩ [9]
    [⟨[1], ⟨"stake", 10⟩⟩, ⟨[2], ⟨"stake", -5⟩⟩]
    (ErrBadDelegationAmount DefaultCodespace) (by decide)

/-- A hexadecimal digit round-trips through its character code. -/
theorem fromHexDigit_hexDigitChar (n : Nat) (h : n < 16) :
    fromHexDigit (hexDigitChar n) = some n := by
  unfold hexDigitChar fromHexDigit
  by_cases h10 : n < 10
  · have c1 : 48 ≤ 48 + n ∧ 48 + n ≤ 57 := by omega
    rw [if_pos h10, if_pos c1]
    congr 1
    omega
  · have c1 : ¬ (48 ≤ 87 + n ∧ 87 + n ≤ 57) := by omega
    have c2 : 97 ≤ 87 + n ∧ 87 + n ≤ 102 := by omega
    rw [if_neg h10, if_neg c1, if_pos c2]
    congr 1
    omega

/-- A byte sequence round-trips through its hexadecimal character codes. -/
theorem decodeHexPairs_encode (pk : List Nat) (h : ∀ b ∈ pk, b < 256) :
    decodeHexPairs ((pk.map encodeByte).flatten) = some pk := by
  induction pk with
  | nil => rfl
  | cons b bs ih =>
    have hb : b < 256 := h b (by simp)
    have h1 : b / 16 < 16 := by omega
    have h2 : b % 16 < 16 := by omega
    have hshape : (((b :: bs).map encodeByte).flatten) =
        hexDigitChar (b / 16) :: hexDigitChar (b % 16) ::
          ((bs.map encodeByte).flatten) := by
      simp [encodeByte]
    rw [hshape]
    simp only [decodeHexPairs, fromHexDigit_hexDigitChar _ h1,
      fromHexDigit_hexDigitChar _ h2, ih (fun x hx => h x (by simp [hx]))]
    simp only [Option.some.injEq, List.cons.injEq]
    exact ⟨by omega, trivial⟩

/-- The consensus-public-key string round-trips for every valid public key
(a list of bytes). -/
theorem getConsPubKeyBech32_roundtrip (pk : List Nat) (h : ∀ b ∈ pk, b < 256) :
    GetConsPubKeyBech32 (MustBech32ifyConsPub pk) = .ok pk := by
  unfold GetConsPubKeyBech32 MustBech32ifyConsPub
  have ht : (consPubHrp ++ (pk.map encodeByte).flatten).take consPubHrp.length =
      consPubHrp := List.take_left ..
  have hd : (consPubHrp ++ (pk.map encodeByte).flatten).drop consPubHrp.length =
      (pk.map encodeByte).flatten := List.drop_left ..
  rw [if_pos ht, hd, decodeHexPairs_encode pk h]

/-- C5: the custom JSON transcoding of `MsgCreateValidator` round-trips
exactly: `UnmarshalJSON` applied to the output of `MarshalJSON`
reconstructs an equal message for every message with a valid public key; in
particular `decode(encode(pk)) = pk` for every valid public key; and a
pubkey string that fails decoding surfaces as a returned deserialization
error, never as a panic (the decoder is a total function into `Except`). -/
theorem msgCreateValidator_json_roundtrip :
    (∀ msg : MsgCreateValidator, (∀ b ∈ msg.PubKey, b < 256) →
        MsgCreateValidator.UnmarshalJSON (MsgCreateValidator.MarshalJSON msg) =
          .ok msg) ∧
    (∀ pk : List Nat, (∀ b ∈ pk, b < 256) →
        GetConsPubKeyBech32 (MustBech32ifyConsPub pk) = .ok pk) ∧
    (∀ (j : msgCreateValidatorJSON) (e : String),
        GetConsPubKeyBech32 j.PubKey = .error e →
          MsgCreateValidator.UnmarshalJSON j = .error e) := by
  refine ⟨?_, getConsPubKeyBech32_roundtrip, ?_⟩
  · intro msg h
    simp only [MsgCreateValidator.UnmarshalJSON, MsgCreateValidator.MarshalJSON]
    rw [getConsPubKeyBech32_roundtrip msg.PubKey h]
  · intro j e he
    simp only [MsgCreateValidator.UnmarshalJSON]
    rw [he]

/-- Witness for C5: a concrete message with public key bytes `[0, 255]`
round-trips, and a junk pubkey string is rejected with an error. -/
theorem msgCreateValidator_json_roundtrip_witness :
    MsgCreateValidator.UnmarshalJSON (MsgCreateValidator.MarshalJSON
        ⟨⟨"m", "", "", ""⟩, ⟨1, 2, 3⟩, 1, [4], [4], [0, 255], ⟨"atom", 2⟩, "s"⟩) =
      .ok ⟨⟨"m", "", "", ""⟩, ⟨1, 2, 3⟩, 1, [4], [4], [0, 255], ⟨"atom", 2⟩, "s"⟩ ∧
    MsgCreateValidator.UnmarshalJSON
        ⟨⟨"m", "", "", ""⟩, ⟨1, 2, 3⟩, 1, [4], [4], [0], ⟨"atom", 2⟩, "s"⟩ =
      .error "invalid bech32 hrp" :=
  ⟨msgCreateValidator_json_roundtrip.1
      ⟨⟨"m", "", "", ""⟩, ⟨1, 2, 3⟩, 1, [4], [4], [0, 255], ⟨"atom", 2⟩, "s"⟩
      (by decide),
   msgCreateValidator_json_roundtrip.2.2
      ⟨⟨"m", "", "", ""⟩, ⟨1, 2, 3⟩, 1, [4], [4], [0], ⟨"atom", 2⟩, "s"⟩
      "invalid bech32 hrp" rfl⟩

end Dao
